import Mathlib

/-!
Verification development for the PromptNest on-device semantic subsystem
(`utils/ai.js`, `utils/storage.js`, `popup/popup.js`).

Modelling conventions:
* JavaScript floating-point numbers are modelled by an arbitrary linear
  ordered field `K`; concrete evaluations instantiate `K := ℚ`.
  `Math.sqrt` is passed in as an explicit function argument `sqrt : K → K`;
  theorems that depend on its behaviour assume its defining equations only
  at the particular points where the code applies it, so that concrete
  witnesses can discharge those assumptions over `ℚ`.
* `null`/`undefined` results are modelled by `Option`; a thrown and caught
  exception from the inference runtime is modelled by `Except Unit`.
* JavaScript `Map` objects (the in-memory embedding caches) are modelled by
  association lists consulted front-to-back; `Map.set` is modelled by
  consing the new binding at the front, which yields the same lookup
  results as overwriting.
* `Array.prototype.sort` with comparator `(l, r) => r.score - l.score` is
  (per ES2019) a stable descending sort; a stable descending sort is
  extensionally unique, and is modelled by `List.insertionSort` with the
  relation "left score is at least right score".
-/

namespace PromptNest

/-- A saved prompt record as handled by `utils/ai.js`: `id`, `title`, `text`,
`tags` and the optional persisted `embedding` field. -/
structure Prompt (K : Type) where
  id : String
  title : String
  text : String
  tags : List String
  embedding : Option (List K)
deriving DecidableEq, Repr

/-- A prompt together with the `_semanticScore` attached by `semanticSearch`. -/
structure Scored (K : Type) where
  prompt : Prompt K
  score : K
deriving DecidableEq, Repr

/-- Raw output of the external inference pipeline as classified by
`resolveTensor`: a tensor-like object carrying a data buffer plus a dims
list, a nested array (modelled at two levels of nesting: a list of token
rows), or anything else (which `resolveTensor` rejects). -/
inductive ModelOutput (K : Type) where
  | tensor (data : List K) (dims : List Nat)
  | arr (rows : List (List K))
  | invalid
deriving DecidableEq, Repr

/-- The `{ data, dims }` pair produced by `resolveTensor`. -/
structure TensorData (K : Type) where
  data : List K
  dims : List Nat
deriving DecidableEq, Repr

/-- The model pipeline as seen from `embedText`: absent (`modelPipeline`
is `null`) or a callable that can throw (`Except.error`). -/
abbrev Pipe (K : Type) := Option (String → Except Unit (ModelOutput K))

/-- An in-memory embedding cache (`Map` keyed by strings). -/
abbrev Cache (K : Type) := List (String × List K)

/-- Model of JavaScript `String.prototype.trim`: drop whitespace
characters from both ends. Defined by structural recursion on the
character list so that concrete instances evaluate by kernel reduction. -/
def jsTrim (s : String) : String :=
  ⟨((s.data.dropWhile Char.isWhitespace).reverse.dropWhile
      Char.isWhitespace).reverse⟩

/-- Model of JavaScript `String.prototype.toLowerCase` (per-character case
folding, matching `Char.toLower`). -/
def jsToLower (s : String) : String :=
  ⟨s.data.map Char.toLower⟩

variable {K : Type} [LinearOrderedField K]

/-- Sum of squares of a vector's entries (the `magnitude`/`norm`
accumulators of `meanPoolAndNormalize` and `cosineSimilarity`). -/
def sumSq (v : List K) : K := (v.map fun x => x * x).sum

/-- Dot product accumulator of `cosineSimilarity`'s loop. -/
def dotProd (a b : List K) : K := (List.zipWith (fun x y => x * y) a b).sum

/-- Lean model of `cosineSimilarity` (utils/ai.js lines 368-388): `0` when
either vector is absent or lengths mismatch, `0` when either accumulated
norm is zero, otherwise `dot / (sqrt normA * sqrt normB)`. -/
def cosineSimilarity (sqrt : K → K) : Option (List K) → Option (List K) → K
  | none, _ => 0
  | some _, none => 0
  | some a, some b =>
    if a.length ≠ b.length then 0
    else
      let dot := dotProd a b
      let normA := sumSq a
      let normB := sumSq b
      if normA = 0 ∨ normB = 0 then 0
      else dot / (sqrt normA * sqrt normB)

/-- Lean model of `toVector` (utils/ai.js lines 358-365): `null` unless the
stored embedding is a non-empty array. -/
def toVector : Option (List K) → Option (List K)
  | none => none
  | some l => if l.length = 0 then none else some l

/-- Lean model of `resolveTensor` (utils/ai.js lines 262-273): a
tensor-like output is passed through; a nested-array output is flattened,
with dims `[1, length || 1, firstRowLength || flattenedLength]`; anything
else resolves to `null`. -/
def resolveTensor : ModelOutput K → Option (TensorData K)
  | .tensor data dims => some ⟨data, dims⟩
  | .arr rows =>
    let flattened := rows.join
    some ⟨flattened,
      [1, if rows.length = 0 then 1 else rows.length,
        match rows.head? with
        | some r => if r.length = 0 then flattened.length else r.length
        | none => flattened.length]⟩
  | .invalid => none

/-- Lean model of the pooling stage of `meanPoolAndNormalize`
(utils/ai.js lines 276-313): with three or more dims, mean-pool over the
second-to-last (token) dimension; with two dims, mean-pool over rows; with
one dim, copy the source; with no dims, return `null`. Out-of-range reads
(`source[i] || 0`) give `0`, and the divisor is `tokens || 1`. -/
def meanPool (dims : List Nat) (source : List K) : Option (List K) :=
  if 3 ≤ dims.length then
    let tokens := dims.getD (dims.length - 2) 0
    let hidden := dims.getD (dims.length - 1) 0
    some ((List.range hidden).map fun f =>
      ((List.range tokens).map fun t => source.getD (t * hidden + f) 0).sum
        / (if tokens = 0 then 1 else (tokens : K)))
  else if dims.length = 2 then
    let rows := dims.getD 0 0
    let cols := dims.getD 1 0
    some ((List.range cols).map fun c =>
      ((List.range rows).map fun r => source.getD (r * cols + c) 0).sum
        / (if rows = 0 then 1 else (rows : K)))
  else if dims.length = 1 then
    some source
  else none

/-- Lean model of the normalization stage of `meanPoolAndNormalize`
(utils/ai.js lines 315-331): divide by `sqrt(magnitude)` unless that
denominator is zero, in which case return the pooled vector unchanged. -/
def normalizeVec (sqrt : K → K) (pooled : List K) : List K :=
  let denominator := sqrt (sumSq pooled)
  if denominator = 0 then pooled
  else pooled.map fun x => x / denominator

/-- Lean model of `meanPoolAndNormalize` (utils/ai.js lines 276-332). -/
def meanPoolAndNormalize (sqrt : K → K) (dims : List Nat) (source : List K) :
    Option (List K) :=
  (meanPool dims source).map (normalizeVec sqrt)

/-- Lean model of `embedText` (utils/ai.js lines 335-355): `null` for
blank trimmed input, unavailable model, or missing pipeline; a thrown
inference error (`Except.error`) is caught and becomes `null`; an
unresolvable tensor shape becomes `null`; otherwise the pooled and
normalized vector. -/
def embedText (ai : Bool) (pipe : Pipe K) (sqrt : K → K) (text : String) :
    Option (List K) :=
  let inputText := jsTrim text
  if inputText = "" ∨ ai = false then none
  else
    match pipe with
    | none => none
    | some run =>
      match run inputText with
      | .error _ => none
      | .ok out =>
        match resolveTensor out with
        | none => none
        | some t => meanPoolAndNormalize sqrt t.dims t.data

/-- The value of the pooled (pre-normalization) vector inside a successful
`embedText` call; used to state the unit-norm property. -/
def pooledOfText (ai : Bool) (pipe : Pipe K) (text : String) :
    Option (List K) :=
  let inputText := jsTrim text
  if inputText = "" ∨ ai = false then none
  else
    match pipe with
    | none => none
    | some run =>
      match run inputText with
      | .error _ => none
      | .ok out =>
        match resolveTensor out with
        | none => none
        | some t => meanPool t.dims t.data

/-- Contiguous-occurrence test on character lists: does `needle` occur as
an infix of the second argument? Models `String.prototype.includes`. -/
def occursIn (needle : List Char) : List Char → Bool
  | [] => needle.isEmpty
  | c :: rest => needle.isPrefixOf (c :: rest) || occursIn needle rest

/-- Model of `haystack.includes(needle)` on strings. -/
def jsIncludes (haystack needle : String) : Bool :=
  occursIn needle.data haystack.data

/-- Model of `tags.join(' ')`. -/
def joinTags : List String → String
  | [] => ""
  | [t] => t
  | t :: ts => t ++ " " ++ joinTags ts

/-- Lean model of `keywordFilter` (utils/ai.js lines 391-404): trim and
lowercase the query; an empty normalized query passes everything through;
otherwise keep the prompts whose lowercased title, text, or joined tag
list contains the normalized query as a substring. -/
def keywordFilter (query : String) (prompts : List (Prompt K)) :
    List (Prompt K) :=
  let normalized := jsToLower (jsTrim query)
  if normalized = "" then prompts
  else
    prompts.filter fun p =>
      jsIncludes (jsToLower p.title) normalized ||
      jsIncludes (jsToLower p.text) normalized ||
      jsIncludes (jsToLower (joinTags p.tags)) normalized

/-- The composite cache key of `semanticSearch` (utils/ai.js line 493):
the prompt id, or the `title:text` composite when the id is empty. -/
def cacheKey (p : Prompt K) : String :=
  if p.id ≠ "" then p.id else p.title ++ ":" ++ p.text

/-- The combined `title text` string `semanticSearch` embeds for a
candidate prompt (utils/ai.js line 497). -/
def combinedText (p : Prompt K) : String :=
  jsTrim (jsTrim p.title ++ " " ++ jsTrim p.text)

/-- `SEMANTIC_PROMPT_CAP` (utils/ai.js line 201). -/
def SEMANTIC_PROMPT_CAP : Nat := 200

/-- The scoring loop of `semanticSearch` (utils/ai.js lines 490-514):
resolve each candidate's vector from the composite-key cache, else embed
and cache it; skip candidates with no vector; keep candidates whose
similarity with the query vector strictly exceeds `0.25` (`1/4`), tagging
them with the score. Returns the surviving scored list in input order
together with the updated cache. -/
def scoreLoop (sqrt : K → K) (ai : Bool) (pipe : Pipe K) (qv : List K) :
    List (Prompt K) → Cache K → List (Scored K) × Cache K
  | [], cache => ([], cache)
  | p :: rest, cache =>
    match cache.lookup (cacheKey p) with
    | some v =>
      let similarity := cosineSimilarity sqrt (some qv) (some v)
      let res := scoreLoop sqrt ai pipe qv rest cache
      (if 1 / 4 < similarity then ⟨p, similarity⟩ :: res.1 else res.1, res.2)
    | none =>
      match embedText ai pipe sqrt (combinedText p) with
      | none => scoreLoop sqrt ai pipe qv rest cache
      | some v =>
        let similarity := cosineSimilarity sqrt (some qv) (some v)
        let res := scoreLoop sqrt ai pipe qv rest ((cacheKey p, v) :: cache)
        (if 1 / 4 < similarity then ⟨p, similarity⟩ :: res.1 else res.1, res.2)

/-- The descending-score order used to model the stable JS sort
`(left, right) => right._semanticScore - left._semanticScore`. -/
def scoreGE (a b : Scored K) : Prop := b.score ≤ a.score

instance : DecidableRel (scoreGE (K := K)) := fun a b =>
  inferInstanceAs (Decidable (b.score ≤ a.score))

instance : IsTotal (Scored K) scoreGE :=
  ⟨fun a b => (le_total b.score a.score).elim Or.inl Or.inr⟩

instance : IsTrans (Scored K) scoreGE :=
  ⟨fun _ _ _ hab hbc => le_trans hbc hab⟩

/-- The stable descending sort at the end of `semanticSearch`
(utils/ai.js line 516). -/
def sortByScore (l : List (Scored K)) : List (Scored K) :=
  List.insertionSort scoreGE l

/-- The result of a `semanticSearch` call: the plain prompt list (no-query
passthrough or keyword fallback) or the scored, ranked list of the
semantic path. -/
inductive SearchResult (K : Type) where
  | plain (prompts : List (Prompt K))
  | scored (results : List (Scored K))
deriving DecidableEq, Repr

/-- Lean model of `semanticSearch` (utils/ai.js lines 466-518), threading
the module-level `semanticEmbeddingCache` explicitly as an argument and a
result component. -/
def semanticSearch (sqrt : K → K) (ai : Bool) (pipe : Pipe K)
    (cache : Cache K) (query : String) (prompts : List (Prompt K)) :
    SearchResult K × Cache K :=
  let normalizedQuery := jsTrim query
  if normalizedQuery = "" then (.plain prompts, cache)
  else if ai = false then (.plain (keywordFilter normalizedQuery prompts), cache)
  else
    match embedText ai pipe sqrt normalizedQuery with
    | none => (.plain (keywordFilter normalizedQuery prompts), cache)
    | some queryVector =>
      let limitedPrompts := prompts.take SEMANTIC_PROMPT_CAP
      let res := scoreLoop sqrt ai pipe queryVector limitedPrompts cache
      (.scored (sortByScore res.1), res.2)

/-- The cache-miss tail of `getPromptTextEmbedding` (utils/ai.js lines
569-585): prefer the persisted embedding via `toVector`; otherwise embed
the prompt text on the fly; cache the resulting vector under the prompt id
when the id is non-empty. -/
def resolveStored (sqrt : K → K) (ai : Bool) (pipe : Pipe K)
    (cache : Cache K) (p : Prompt K) : Option (List K) × Cache K :=
  match toVector p.embedding with
  | some stored =>
    (some stored, if p.id ≠ "" then (p.id, stored) :: cache else cache)
  | none =>
    match embedText ai pipe sqrt (jsTrim p.text) with
    | some computed =>
      (some computed, if p.id ≠ "" then (p.id, computed) :: cache else cache)
    | none => (none, cache)

/-- Lean model of `getPromptTextEmbedding` (utils/ai.js lines 562-586),
threading the module-level `textEmbeddingCache` explicitly: a cached entry
under a non-empty prompt id wins; otherwise fall through to the stored or
freshly computed embedding. -/
def getPromptTextEmbedding (sqrt : K → K) (ai : Bool) (pipe : Pipe K)
    (cache : Cache K) (p : Prompt K) : Option (List K) × Cache K :=
  if p.id ≠ "" then
    match cache.lookup p.id with
    | some v => (some v, cache)
    | none => resolveStored sqrt ai pipe cache p
  else resolveStored sqrt ai pipe cache p

/-- The scan loop of `isDuplicate` (utils/ai.js lines 600-612): resolve
each prompt's vector (skipping prompts with none), and short-circuit with
the first prompt whose similarity to the candidate vector strictly exceeds
`0.92` (`92/100`). -/
def dupScan (sqrt : K → K) (ai : Bool) (pipe : Pipe K) (qv : List K) :
    List (Prompt K) → Cache K → Option (Prompt K) × Cache K
  | [], cache => (none, cache)
  | p :: rest, cache =>
    let r := getPromptTextEmbedding sqrt ai pipe cache p
    match r.1 with
    | none => dupScan sqrt ai pipe qv rest r.2
    | some v =>
      if 92 / 100 < cosineSimilarity sqrt (some qv) (some v) then
        (some p, r.2)
      else dupScan sqrt ai pipe qv rest r.2

/-- Lean model of `isDuplicate` (utils/ai.js lines 589-615). The JS value
`\x7bduplicate: true, match: p\x7d` is modelled as `some p` and
`\x7bduplicate: false\x7d` as `none` in the first component. -/
def isDuplicate (sqrt : K → K) (ai : Bool) (pipe : Pipe K) (cache : Cache K)
    (newText : String) (prompts : List (Prompt K)) :
    Option (Prompt K) × Cache K :=
  if ai = false then (none, cache)
  else
    match embedText ai pipe sqrt newText with
    | none => (none, cache)
    | some qv => dupScan sqrt ai pipe qv prompts cache

/-- Whether a single prompt, resolved against a fixed cache, counts as a
duplicate hit for the candidate vector: its vector resolves and its
similarity strictly exceeds `0.92`. Similarity exactly `0.92` is not a
hit. -/
def dupHit (sqrt : K → K) (ai : Bool) (pipe : Pipe K) (cache : Cache K)
    (qv : List K) (p : Prompt K) : Bool :=
  match (getPromptTextEmbedding sqrt ai pipe cache p).1 with
  | none => false
  | some v => 92 / 100 < cosineSimilarity sqrt (some qv) (some v)

/-- The skip condition of the rehydration loop (utils/ai.js line 632):
the prompt already carries a non-empty embedding array. -/
def hasNonEmptyEmbedding (p : Prompt K) : Bool :=
  match p.embedding with
  | some e => decide (0 < e.length)
  | none => false

/-- The scan loop of `rehydratePromptEmbeddings` (utils/ai.js lines
626-652): for each prompt lacking a non-empty embedding, embed its text;
on success replace the record copy-on-write with the new embedding and
populate the per-id `textEmbeddingCache`; report whether anything
changed. Returns (updated prompts, changed, cache). -/
def rehydrateLoop (sqrt : K → K) (ai : Bool) (pipe : Pipe K) :
    List (Prompt K) → Cache K → List (Prompt K) × Bool × Cache K
  | [], cache => ([], false, cache)
  | p :: rest, cache =>
    if hasNonEmptyEmbedding p then
      let r := rehydrateLoop sqrt ai pipe rest cache
      (p :: r.1, r.2.1, r.2.2)
    else
      match embedText ai pipe sqrt (jsTrim p.text) with
      | none =>
        let r := rehydrateLoop sqrt ai pipe rest cache
        (p :: r.1, r.2.1, r.2.2)
      | some emb =>
        let cache₁ := if p.id ≠ "" then (p.id, emb) :: cache else cache
        let r := rehydrateLoop sqrt ai pipe rest cache₁
        ({ p with embedding := some emb } :: r.1, true, r.2.2)

/-- Observable outcome of one `rehydratePromptEmbeddings` call: the
returned flag, the list of storage writes performed (each a full prompt
collection), the resulting prompt collection, and the per-id cache. -/
structure RehydrateOut (K : Type) where
  changed : Bool
  writes : List (List (Prompt K))
  prompts : List (Prompt K)
  cache : Cache K
deriving DecidableEq, Repr

/-- Lean model of `rehydratePromptEmbeddings` (utils/ai.js lines 618-665):
no-op returning `false` when the model is unavailable, when the reentrancy
flag `rehydratingEmbeddings` (`busy`) is set, or when the prompt list is
empty; otherwise scan, then persist the entire updated collection in a
single write only if something changed, and return the flag. -/
def rehydratePromptEmbeddings (sqrt : K → K) (ai : Bool) (pipe : Pipe K)
    (busy : Bool) (prompts : List (Prompt K)) (cache : Cache K) :
    RehydrateOut K :=
  if ai = false ∨ busy ∨ prompts.length = 0 then
    ⟨false, [], prompts, cache⟩
  else
    let r := rehydrateLoop sqrt ai pipe prompts cache
    ⟨r.2.1, if r.2.1 then [r.1] else [], r.1, r.2.2⟩

/-- Lean model of `deletePrompt` (utils/storage.js lines 96-101): filter
the stored prompts by id and persist the filtered list. -/
def deletePrompt (prompts : List (Prompt K)) (id : String) :
    List (Prompt K) :=
  prompts.filter fun item => item.id ≠ id

/-- Combined state relevant to prompt deletion: the persisted prompts and
the module-level per-id `textEmbeddingCache` of utils/ai.js. -/
structure AppState (K : Type) where
  prompts : List (Prompt K)
  textEmbeddingCache : Cache K
deriving DecidableEq, Repr

/-- Lean model of the complete delete flow (`onDeletePrompt` in
popup/popup.js lines 52-56 calling `Storage.deletePrompt`): the stored
prompts are filtered; no statement in popup.js, storage.js or ai.js
deletes or clears any `textEmbeddingCache` entry, so the cache component
is untouched. -/
def onDeletePrompt (st : AppState K) (promptId : String) : AppState K :=
  { st with prompts := deletePrompt st.prompts promptId }

/-- Concrete pipeline used for rehydration evaluation: every text embeds
to the (already unit-norm) vector `[1]`. -/
def pipeW : Pipe ℚ := some fun _ => Except.ok (ModelOutput.tensor [1] [1])

/-- Concrete pipeline for evaluating the search cache behaviour: the query
`"q"` and the combined text `"t1 x1"` embed to `[1, 0]`, every other text
to `[0, 1]`. -/
def pipeC : Pipe ℚ :=
  some fun t =>
    if t = "q" ∨ t = "t1 x1" then Except.ok (ModelOutput.tensor [1, 0] [2])
    else Except.ok (ModelOutput.tensor [0, 1] [2])

/-- Concrete prompt with id `"a"` and text `"x1"`. -/
def pC1 : Prompt ℚ := ⟨"a", "t1", "x1", [], none⟩

/-- Concrete prompt with the same id `"a"` but different text `"x2"`. -/
def pC2 : Prompt ℚ := ⟨"a", "t1", "x2", [], none⟩

theorem sumSq_nonneg (v : List K) : 0 ≤ sumSq v := by
  induction v with
  | nil => simp [sumSq]
  | cons x xs ih =>
    simp only [sumSq, List.map_cons, List.sum_cons]
    have := mul_self_nonneg x
    simp only [sumSq] at ih
    linarith

theorem sumSq_eq_zero_of_all_zero {v : List K} (h : ∀ x ∈ v, x = 0) :
    sumSq v = 0 := by
  induction v with
  | nil => simp [sumSq]
  | cons x xs ih =>
    have hx : x = 0 := h x (by simp)
    have hxs : sumSq xs = 0 := ih fun y hy => h y (by simp [hy])
    simp only [sumSq, List.map_cons, List.sum_cons] at *
    simp [hx, hxs]

theorem sumSq_cons (x : K) (xs : List K) :
    sumSq (x :: xs) = x * x + sumSq xs := by
  simp [sumSq]

theorem dotProd_cons (x y : K) (xs ys : List K) :
    dotProd (x :: xs) (y :: ys) = x * y + dotProd xs ys := by
  simp [dotProd]

theorem dotProd_self (v : List K) : dotProd v v = sumSq v := by
  induction v with
  | nil => simp [dotProd, sumSq]
  | cons x xs ih => rw [dotProd_cons, sumSq_cons, ih]

/-- Cauchy-Schwarz for the zipped dot product of two lists. -/
theorem dotProd_sq_le (a b : List K) :
    dotProd a b * dotProd a b ≤ sumSq a * sumSq b := by
  induction a generalizing b with
  | nil => simp [dotProd, sumSq]
  | cons x xs ih =>
    cases b with
    | nil => simp [dotProd, sumSq]
    | cons y ys =>
      have hAB := ih ys
      have hA := sumSq_nonneg xs
      have hB := sumSq_nonneg ys
      rw [dotProd_cons, sumSq_cons, sumSq_cons]
      set d := dotProd xs ys with hd
      set A := sumSq xs with hA'
      set B := sumSq ys with hB'
      rcases eq_or_lt_of_le hB with hB0 | hBpos
      · have hdd : d * d = 0 := by
          have h1 : d * d ≤ 0 := by nlinarith
          exact le_antisymm h1 (mul_self_nonneg d)
        have hd0 : d = 0 := mul_self_eq_zero.mp hdd
        rw [hd0, ← hB0]
        nlinarith [mul_nonneg hA (mul_self_nonneg y)]
      · nlinarith [mul_self_nonneg (x * B - y * d),
          mul_nonneg (sub_nonneg.2 hAB) (mul_self_nonneg y),
          mul_nonneg (sub_nonneg.2 hAB) hBpos.le]

/-- C7: cosine of a nonzero vector with itself is `1`; cosine is exactly `0`
when either argument is absent, when either is empty, or when the lengths
mismatch; and the result always lies in `[-1, 1]`. The `sqrt` argument
models `Math.sqrt`; its defining equations are assumed only at the two
norms the code feeds it (they hold exactly for real square roots). The
function is total, so no call can throw. -/
theorem cosine_props (sqrt : K → K) :
    (∀ v : List K, sumSq v ≠ 0 →
        sqrt (sumSq v) * sqrt (sumSq v) = sumSq v →
        cosineSimilarity sqrt (some v) (some v) = 1) ∧
    (∀ b : Option (List K), cosineSimilarity sqrt none b = 0) ∧
    (∀ a : Option (List K), cosineSimilarity sqrt a none = 0) ∧
    (∀ a b : List K, a.length ≠ b.length →
        cosineSimilarity sqrt (some a) (some b) = 0) ∧
    (∀ a b : List K, a = [] ∨ b = [] →
        cosineSimilarity sqrt (some a) (some b) = 0) ∧
    (∀ a b : List K,
        0 ≤ sqrt (sumSq a) → 0 ≤ sqrt (sumSq b) →
        sqrt (sumSq a) * sqrt (sumSq a) = sumSq a →
        sqrt (sumSq b) * sqrt (sumSq b) = sumSq b →
        -1 ≤ cosineSimilarity sqrt (some a) (some b) ∧
          cosineSimilarity sqrt (some a) (some b) ≤ 1) := by
  refine ⟨?_, ?_, ?_, ?_, ?_, ?_⟩
  · intro v hv hs
    simp only [cosineSimilarity]
    rw [if_neg (by simp), if_neg (by simp [hv])]
    rw [dotProd_self, hs, div_self hv]
  · intro b
    rfl
  · intro a
    cases a <;> rfl
  · intro a b hlen
    simp only [cosineSimilarity]
    rw [if_pos hlen]
  · intro a b hab
    by_cases hlen : a.length ≠ b.length
    · simp only [cosineSimilarity]
      rw [if_pos hlen]
    · push_neg at hlen
      have h0 : sumSq a = 0 ∨ sumSq b = 0 := by
        rcases hab with rfl | rfl
        · exact Or.inl (by simp [sumSq])
        · exact Or.inr (by simp [sumSq])
      simp only [cosineSimilarity]
      rw [if_neg (by simp [hlen]), if_pos h0]
  · intro a b hsa hsb ha hb
    by_cases hlen : a.length ≠ b.length
    · simp only [cosineSimilarity]
      rw [if_pos hlen]
      norm_num
    · by_cases h0 : sumSq a = 0 ∨ sumSq b = 0
      · simp only [cosineSimilarity]
        rw [if_neg hlen, if_pos h0]
        norm_num
      · push_neg at h0
        obtain ⟨hA0, hB0⟩ := h0
        have hApos : 0 < sumSq a := (sumSq_nonneg a).lt_of_ne (Ne.symm hA0)
        have hBpos : 0 < sumSq b := (sumSq_nonneg b).lt_of_ne (Ne.symm hB0)
        have hsa' : 0 < sqrt (sumSq a) := by
          rcases hsa.lt_or_eq with h | h
          · exact h
          · exfalso
            rw [← h] at ha
            simp only [mul_zero] at ha
            exact hA0 ha.symm
        have hsb' : 0 < sqrt (sumSq b) := by
          rcases hsb.lt_or_eq with h | h
          · exact h
          · exfalso
            rw [← h] at hb
            simp only [mul_zero] at hb
            exact hB0 hb.symm
        have hD : 0 < sqrt (sumSq a) * sqrt (sumSq b) := mul_pos hsa' hsb'
        have hD2 : (sqrt (sumSq a) * sqrt (sumSq b)) *
            (sqrt (sumSq a) * sqrt (sumSq b)) = sumSq a * sumSq b := by
          rw [mul_mul_mul_comm, ha, hb]
        have hCS := dotProd_sq_le a b
        have hub : dotProd a b ≤ sqrt (sumSq a) * sqrt (sumSq b) := by
          nlinarith
        have hlb : -(sqrt (sumSq a) * sqrt (sumSq b)) ≤ dotProd a b := by
          nlinarith
        simp only [cosineSimilarity]
        rw [if_neg hlen, if_neg (by push_neg; exact ⟨hA0, hB0⟩)]
        constructor
        · rw [le_div_iff hD]
          linarith
        · rw [div_le_one hD]
          exact hub

/-- Witness for C7 at concrete rational inputs (using `id` for `sqrt`,
whose contract holds at the norms `1` and `0` that these inputs produce). -/
theorem cosine_props_witness :
    cosineSimilarity (id : ℚ → ℚ) (some [1]) (some [1]) = 1 ∧
    cosineSimilarity (id : ℚ → ℚ) none (some [1]) = 0 ∧
    cosineSimilarity (id : ℚ → ℚ) (some [1]) none = 0 ∧
    cosineSimilarity (id : ℚ → ℚ) (some [1]) (some [1, 2]) = 0 ∧
    cosineSimilarity (id : ℚ → ℚ) (some []) (some []) = 0 ∧
    (-1 ≤ cosineSimilarity (id : ℚ → ℚ) (some [1]) (some [0]) ∧
      cosineSimilarity (id : ℚ → ℚ) (some [1]) (some [0]) ≤ 1) := by
  obtain ⟨h1, h2, h3, h4, h5, h6⟩ := cosine_props (K := ℚ) id
  exact ⟨h1 [1] (by norm_num [sumSq]) (by norm_num [sumSq]),
    h2 (some [1]), h3 (some [1]), h4 [1] [1, 2] (by decide),
    h5 [] [] (Or.inl rfl),
    h6 [1] [0] (by norm_num [sumSq]) (by norm_num [sumSq])
      (by norm_num [sumSq]) (by norm_num [sumSq])⟩

/-- C10: for equal-length non-empty vectors, if either vector is all zeros
(zero magnitude), `cosineSimilarity` takes the zero-norm guard branch and
returns `0` instead of dividing by zero. -/
theorem cosine_zero_norm_guard (sqrt : K → K) (a b : List K)
    (hlen : a.length = b.length) (ha : a ≠ []) (hb : b ≠ [])
    (hz : (∀ x ∈ a, x = 0) ∨ (∀ x ∈ b, x = 0)) :
    cosineSimilarity sqrt (some a) (some b) = 0 := by
  have h0 : sumSq a = 0 ∨ sumSq b = 0 := by
    rcases hz with h | h
    · exact Or.inl (sumSq_eq_zero_of_all_zero h)
    · exact Or.inr (sumSq_eq_zero_of_all_zero h)
  simp only [cosineSimilarity]
  rw [if_neg (by simp [hlen]), if_pos h0]

/-- Witness for C10: a concrete all-zero second vector yields similarity 0. -/
theorem cosine_zero_norm_guard_witness :
    cosineSimilarity (id : ℚ → ℚ) (some [1, 2]) (some [0, 0]) = 0 :=
  cosine_zero_norm_guard id [1, 2] [0, 0] rfl (by decide) (by decide)
    (Or.inr (by decide))

theorem sumSq_map_div (l : List K) (s : K) :
    sumSq (l.map fun x => x / s) = sumSq l / (s * s) := by
  induction l with
  | nil => simp [sumSq]
  | cons x xs ih =>
    simp only [List.map_cons, sumSq_cons, ih]
    rw [div_mul_div_comm, add_div]

theorem embedText_eq_pooled (ai : Bool) (pipe : Pipe K) (sqrt : K → K)
    (text : String) :
    embedText ai pipe sqrt text =
      (pooledOfText ai pipe text).map (normalizeVec sqrt) := by
  by_cases hg : jsTrim text = "" ∨ ai = false
  · simp [embedText, pooledOfText, hg]
  · cases pipe with
    | none => simp [embedText, pooledOfText, hg]
    | some run =>
      cases hrun : run (jsTrim text) with
      | error e => simp [embedText, pooledOfText, hg, hrun]
      | ok out =>
        cases hres : resolveTensor out with
        | none =>
          simp [embedText, pooledOfText, meanPoolAndNormalize, hg, hrun, hres]
        | some t =>
          simp [embedText, pooledOfText, meanPoolAndNormalize, hg, hrun, hres]

/-- C5: whenever `embedText` succeeds, the returned vector is the pooled
vector scaled to unit L2 norm (stated as sum of squares equal to `1`),
except that a pooled vector of zero magnitude is returned un-normalized.
`hsq` assumes the `Math.sqrt` contract at the one magnitude the code feeds
it. -/
theorem embedText_unit_norm (ai : Bool) (pipe : Pipe K) (sqrt : K → K)
    (text : String) (v p0 : List K)
    (hv : embedText ai pipe sqrt text = some v)
    (hp : pooledOfText ai pipe text = some p0)
    (hsq : sqrt (sumSq p0) * sqrt (sumSq p0) = sumSq p0) :
    (sumSq p0 = 0 → v = p0) ∧ (sumSq p0 ≠ 0 → sumSq v = 1) := by
  rw [embedText_eq_pooled, hp, Option.map_some'] at hv
  have hveq : v = normalizeVec sqrt p0 := (Option.some.inj hv).symm
  constructor
  · intro hm
    have hs0 : sqrt (sumSq p0) = 0 := by
      have h2 : sqrt (sumSq p0) * sqrt (sumSq p0) = 0 := by rw [hsq, hm]
      exact mul_self_eq_zero.mp h2
    rw [hveq]
    unfold normalizeVec
    rw [if_pos hs0]
  · intro hm
    have hs0 : sqrt (sumSq p0) ≠ 0 := by
      intro h
      rw [h, mul_zero] at hsq
      exact hm hsq.symm
    rw [hveq]
    unfold normalizeVec
    rw [if_neg hs0, sumSq_map_div, hsq, div_self hm]

/-- Witness for C5: a pipeline returning the raw vector `[3, 4]` (pooled
magnitude `25`), with a `sqrt` correct at `25`, embeds to `[3/5, 4/5]` of
unit sum of squares. -/
theorem embedText_unit_norm_witness :
    (sumSq [(3 : ℚ), 4] = 0 → [(3 : ℚ) / 5, 4 / 5] = [3, 4]) ∧
    (sumSq [(3 : ℚ), 4] ≠ 0 → sumSq [(3 : ℚ) / 5, 4 / 5] = 1) :=
  embedText_unit_norm true
    (some fun _ => Except.ok (ModelOutput.tensor [3, 4] [2]))
    (fun x => if x = 25 then 5 else 0) "x" [3 / 5, 4 / 5] [3, 4]
    (by
      have hx : jsTrim "x" = "x" := by decide
      simp only [embedText, hx]
      rw [if_neg (by simp)]
      norm_num [resolveTensor, meanPoolAndNormalize, meanPool, normalizeVec,
        sumSq])
    (by
      have hx : jsTrim "x" = "x" := by decide
      simp only [pooledOfText, hx]
      rw [if_neg (by simp)]
      norm_num [resolveTensor, meanPool])
    (by norm_num [sumSq])

/-- C6: `embedText` returns `null` for blank (whitespace-only) trimmed
text, for an unavailable model, for a missing pipeline, when the inference
call throws (the exception is caught at this boundary, modelled by the
`Except.error` arm mapping to `none`), and when the tensor shape cannot be
resolved; being a total function into `Option`, it always returns either a
vector or `none` and never propagates an exception. -/
theorem embedText_null_cases (ai : Bool) (pipe : Pipe K) (sqrt : K → K)
    (text : String) :
    (jsTrim text = "" → embedText ai pipe sqrt text = none) ∧
    (ai = false → embedText ai pipe sqrt text = none) ∧
    (pipe = none → embedText ai pipe sqrt text = none) ∧
    (∀ run, pipe = some run → ∀ e, run (jsTrim text) = Except.error e →
      embedText ai pipe sqrt text = none) ∧
    (∀ run out, pipe = some run → run (jsTrim text) = Except.ok out →
      resolveTensor out = none → embedText ai pipe sqrt text = none) := by
  refine ⟨?_, ?_, ?_, ?_, ?_⟩
  · intro h
    simp only [embedText]
    rw [if_pos (Or.inl h)]
  · intro h
    simp only [embedText]
    rw [if_pos (Or.inr h)]
  · intro h
    subst h
    simp only [embedText]
    split <;> rfl
  · intro run hrun e herr
    subst hrun
    simp only [embedText]
    split
    · rfl
    · rw [herr]
  · intro run out hrun hok hres
    subst hrun
    simp only [embedText]
    split
    · rfl
    · rw [hok]
      simp [hres]

/-- Witness for C6: each null-producing condition evaluated at concrete
inputs over `ℚ`. -/
theorem embedText_null_cases_witness :
    embedText true (some fun _ => Except.ok (ModelOutput.tensor [1] [1]))
      (id : ℚ → ℚ) " " = none ∧
    embedText false (some fun _ => Except.ok (ModelOutput.tensor [1] [1]))
      (id : ℚ → ℚ) "x" = none ∧
    embedText true (none : Pipe ℚ) id "x" = none ∧
    embedText true (some fun _ => Except.error ()) (id : ℚ → ℚ) "x" = none ∧
    embedText true (some fun _ => Except.ok (ModelOutput.invalid))
      (id : ℚ → ℚ) "x" = none := by
  refine ⟨?_, ?_, ?_, ?_, ?_⟩
  · exact (embedText_null_cases true _ id " ").1 (by decide)
  · exact (embedText_null_cases false _ id "x").2.1 rfl
  · exact (embedText_null_cases true none id "x").2.2.1 rfl
  · exact (embedText_null_cases true _ id "x").2.2.2.1 _ rfl () rfl
  · exact (embedText_null_cases true _ id "x").2.2.2.2 _ ModelOutput.invalid
      rfl rfl rfl

theorem dropWhile_dropWhile (p : Char → Bool) (l : List Char) :
    List.dropWhile p (List.dropWhile p l) = List.dropWhile p l := by
  induction l with
  | nil => rfl
  | cons c cs ih =>
    by_cases h : p c
    · rw [List.dropWhile_cons_of_pos h, ih]
    · rw [List.dropWhile_cons_of_neg h, List.dropWhile_cons_of_neg h]

theorem head?_dropWhile_false (p : Char → Bool) (l : List Char) (c : Char)
    (h : (List.dropWhile p l).head? = some c) : p c = false := by
  induction l with
  | nil => simp [List.dropWhile] at h
  | cons x xs ih =>
    by_cases hx : p x
    · rw [List.dropWhile_cons_of_pos hx] at h
      exact ih h
    · rw [List.dropWhile_cons_of_neg hx] at h
      simp only [List.head?_cons, Option.some.injEq] at h
      subst h
      simpa using hx

theorem dropWhile_eq_self_of_head (p : Char → Bool) (l : List Char)
    (h : ∀ c, l.head? = some c → p c = false) :
    List.dropWhile p l = l := by
  cases l with
  | nil => rfl
  | cons x xs =>
    have hx := h x rfl
    rw [List.dropWhile_cons_of_neg (by simp [hx])]

theorem mk_eq_empty_iff (l : List Char) : (⟨l⟩ : String) = "" ↔ l = [] := by
  constructor
  · intro h
    exact (congrArg String.data h).trans rfl
  · intro h
    subst h
    rfl

theorem rev_split (w : Char → Bool) (A : List Char) :
    A = (A.reverse.dropWhile w).reverse ++ (A.reverse.takeWhile w).reverse := by
  have h1 := List.takeWhile_append_dropWhile (p := w) (l := A.reverse)
  have h2 := congrArg List.reverse h1
  rw [List.reverse_append, List.reverse_reverse] at h2
  exact h2.symm

theorem jsTrim_idem (s : String) : jsTrim (jsTrim s) = jsTrim s := by
  unfold jsTrim
  by_cases hB : (s.data.dropWhile Char.isWhitespace).reverse.dropWhile
      Char.isWhitespace = []
  · rw [hB]
    rfl
  · have hAeq := rev_split Char.isWhitespace
      (s.data.dropWhile Char.isWhitespace)
    have hBrevne : (((s.data.dropWhile Char.isWhitespace).reverse.dropWhile
        Char.isWhitespace).reverse : List Char) ≠ [] := by
      simpa using hB
    have hheadB : ∀ c,
        (((s.data.dropWhile Char.isWhitespace).reverse.dropWhile
          Char.isWhitespace).reverse).head? = some c →
        Char.isWhitespace c = false := by
      intro c hc
      apply head?_dropWhile_false Char.isWhitespace s.data c
      rw [hAeq, List.head?_append_of_ne_nil _ hBrevne]
      exact hc
    simp only []
    rw [dropWhile_eq_self_of_head _ _ hheadB, List.reverse_reverse,
      dropWhile_dropWhile]

theorem jsToLower_eq_empty_iff (s : String) :
    jsToLower s = "" ↔ s = "" := by
  cases s with
  | mk d =>
    unfold jsToLower
    rw [mk_eq_empty_iff, List.map_eq_nil]
    constructor
    · intro h
      exact (mk_eq_empty_iff d).mpr h
    · intro h
      exact (mk_eq_empty_iff d).mp h

/-- C8: with a non-empty trimmed query, when the model is unavailable or
embedding the query fails, `semanticSearch` returns exactly the prompts
whose lowercased title, text, or joined tag list contains the lowercased
trimmed query as a substring (OR across the three fields), in input order
(the result is a sublist of the input), and the semantic cache is left
untouched. -/
theorem semanticSearch_keyword_fallback (sqrt : K → K) (ai : Bool)
    (pipe : Pipe K) (cache : Cache K) (query : String)
    (prompts : List (Prompt K))
    (hq : jsTrim query ≠ "")
    (hfb : ai = false ∨ embedText ai pipe sqrt (jsTrim query) = none) :
    (semanticSearch sqrt ai pipe cache query prompts).1 =
      SearchResult.plain (prompts.filter fun p =>
        jsIncludes (jsToLower p.title) (jsToLower (jsTrim query)) ||
        jsIncludes (jsToLower p.text) (jsToLower (jsTrim query)) ||
        jsIncludes (jsToLower (joinTags p.tags)) (jsToLower (jsTrim query))) ∧
    (semanticSearch sqrt ai pipe cache query prompts).2 = cache ∧
    ∀ kept, (semanticSearch sqrt ai pipe cache query prompts).1 =
        SearchResult.plain kept → kept.Sublist prompts := by
  have hne : jsToLower (jsTrim query) ≠ "" := fun h =>
    hq ((jsToLower_eq_empty_iff _).mp h)
  have hkf : keywordFilter (jsTrim query) prompts =
      prompts.filter fun p =>
        jsIncludes (jsToLower p.title) (jsToLower (jsTrim query)) ||
        jsIncludes (jsToLower p.text) (jsToLower (jsTrim query)) ||
        jsIncludes (jsToLower (joinTags p.tags))
          (jsToLower (jsTrim query)) := by
    unfold keywordFilter
    rw [jsTrim_idem, if_neg hne]
  have hmain : semanticSearch sqrt ai pipe cache query prompts =
      (SearchResult.plain (keywordFilter (jsTrim query) prompts), cache) := by
    unfold semanticSearch
    rw [if_neg hq]
    rcases hfb with hai | hnone
    · subst hai
      simp
    · cases ai with
      | false => simp
      | true =>
        simp only [Bool.true_eq_false, if_false]
        rw [hnone]
  refine ⟨?_, ?_, ?_⟩
  · rw [hmain, hkf]
  · rw [hmain]
  · intro kept hk
    rw [hmain, hkf] at hk
    have : kept = prompts.filter _ := (SearchResult.plain.injEq _ _).mp hk.symm
    rw [this]
    exact List.filter_sublist prompts

/-- Witness for C8: with the model unavailable, a concrete query matches
one prompt by title substring and excludes the other. -/
theorem semanticSearch_keyword_fallback_witness :
    (semanticSearch (id : ℚ → ℚ) false none [] "Bug"
        [⟨"a", "Debug Helper", "fixes code", ["coding"], none⟩,
         ⟨"b", "Poem", "the sea", [], none⟩]).1 =
      SearchResult.plain
        ([⟨"a", "Debug Helper", "fixes code", ["coding"], none⟩,
          ⟨"b", "Poem", "the sea", [], none⟩].filter fun p =>
          jsIncludes (jsToLower p.title) (jsToLower (jsTrim "Bug")) ||
          jsIncludes (jsToLower p.text) (jsToLower (jsTrim "Bug")) ||
          jsIncludes (jsToLower (joinTags p.tags))
            (jsToLower (jsTrim "Bug"))) ∧
    (semanticSearch (id : ℚ → ℚ) false none [] "Bug"
        [⟨"a", "Debug Helper", "fixes code", ["coding"], none⟩,
         ⟨"b", "Poem", "the sea", [], none⟩]).2 = [] ∧
    ∀ kept, (semanticSearch (id : ℚ → ℚ) false none [] "Bug"
        [⟨"a", "Debug Helper", "fixes code", ["coding"], none⟩,
         ⟨"b", "Poem", "the sea", [], none⟩]).1 =
      SearchResult.plain kept →
      kept.Sublist [⟨"a", "Debug Helper", "fixes code", ["coding"], none⟩,
        ⟨"b", "Poem", "the sea", [], none⟩] :=
  semanticSearch_keyword_fallback id false none [] "Bug"
    [⟨"a", "Debug Helper", "fixes code", ["coding"], none⟩,
     ⟨"b", "Poem", "the sea", [], none⟩]
    (by decide) (Or.inl rfl)

theorem scoreLoop_mem (sqrt : K → K) (ai : Bool) (pipe : Pipe K)
    (qv : List K) (ps : List (Prompt K)) (cache : Cache K) :
    ∀ x ∈ (scoreLoop sqrt ai pipe qv ps cache).1,
      x.prompt ∈ ps ∧ 1 / 4 < x.score ∧
      ∃ v, x.score = cosineSimilarity sqrt (some qv) (some v) := by
  induction ps generalizing cache with
  | nil =>
    intro x hx
    simp [scoreLoop] at hx
  | cons p rest ih =>
    intro x hx
    cases hlk : cache.lookup (cacheKey p) with
    | some v =>
      simp only [scoreLoop, hlk] at hx
      by_cases hsim : 1 / 4 < cosineSimilarity sqrt (some qv) (some v)
      · rw [if_pos hsim] at hx
        rcases List.mem_cons.mp hx with rfl | hx'
        · exact ⟨List.mem_cons_self _ _, hsim, v, rfl⟩
        · obtain ⟨h1, h2, h3⟩ := ih cache x hx'
          exact ⟨List.mem_cons_of_mem _ h1, h2, h3⟩
      · rw [if_neg hsim] at hx
        obtain ⟨h1, h2, h3⟩ := ih cache x hx
        exact ⟨List.mem_cons_of_mem _ h1, h2, h3⟩
    | none =>
      cases hemb : embedText ai pipe sqrt (combinedText p) with
      | none =>
        simp only [scoreLoop, hlk, hemb] at hx
        obtain ⟨h1, h2, h3⟩ := ih cache x hx
        exact ⟨List.mem_cons_of_mem _ h1, h2, h3⟩
      | some v =>
        simp only [scoreLoop, hlk, hemb] at hx
        by_cases hsim : 1 / 4 < cosineSimilarity sqrt (some qv) (some v)
        · rw [if_pos hsim] at hx
          rcases List.mem_cons.mp hx with rfl | hx'
          · exact ⟨List.mem_cons_self _ _, hsim, v, rfl⟩
          · obtain ⟨h1, h2, h3⟩ := ih _ x hx'
            exact ⟨List.mem_cons_of_mem _ h1, h2, h3⟩
        · rw [if_neg hsim] at hx
          obtain ⟨h1, h2, h3⟩ := ih _ x hx
          exact ⟨List.mem_cons_of_mem _ h1, h2, h3⟩

theorem filter_orderedInsert_score (s : K) (x : Scored K)
    (l : List (Scored K)) :
    (List.orderedInsert scoreGE x l).filter (fun a => decide (a.score = s)) =
      if x.score = s then
        x :: l.filter (fun a => decide (a.score = s))
      else l.filter (fun a => decide (a.score = s)) := by
  induction l with
  | nil =>
    by_cases hx : x.score = s
    · rw [if_pos hx]
      simp [List.orderedInsert, hx]
    · rw [if_neg hx]
      simp [List.orderedInsert, hx]
  | cons y t ih =>
    by_cases hxy : scoreGE x y
    · simp only [List.orderedInsert, if_pos hxy]
      by_cases hx : x.score = s
      · rw [if_pos hx]
        simp [List.filter_cons, hx]
      · rw [if_neg hx]
        simp [List.filter_cons, hx]
    · simp only [List.orderedInsert, if_neg hxy]
      by_cases hx : x.score = s
      · have hy : ¬y.score = s := by
          intro h
          apply hxy
          show y.score ≤ x.score
          rw [h, hx]
        rw [if_pos hx]
        rw [List.filter_cons, List.filter_cons]
        simp only [hy, decide_False, Bool.false_eq_true, if_false, ih,
          if_pos hx]
      · rw [if_neg hx]
        rw [List.filter_cons, List.filter_cons]
        by_cases hy : y.score = s
        · simp only [hy, decide_True, if_true, ih, if_neg hx]
        · simp only [hy, decide_False, Bool.false_eq_true, if_false, ih,
            if_neg hx]

theorem filter_sortByScore_score (s : K) (l : List (Scored K)) :
    (sortByScore l).filter (fun a => decide (a.score = s)) =
      l.filter (fun a => decide (a.score = s)) := by
  induction l with
  | nil => rfl
  | cons x t ih =>
    show (List.orderedInsert scoreGE x
      (List.insertionSort scoreGE t)).filter _ = _
    rw [filter_orderedInsert_score]
    by_cases hx : x.score = s
    · rw [if_pos hx]
      rw [List.filter_cons]
      simp only [hx, decide_True, if_true]
      exact congrArg _ ih
    · rw [if_neg hx]
      rw [List.filter_cons]
      simp only [hx, decide_False, Bool.false_eq_true, if_false]
      exact ih

/-- C2: on the semantic path (model available, query embeds), the search
result is a scored list in which every entry comes from the first
`SEMANTIC_PROMPT_CAP = 200` prompts of the input, every score strictly
exceeds `0.25` (`1/4`), every entry was actually scored against some
resolved vector (candidates with no vector are silently skipped, and the
function is total, so no error can escape), the list is sorted by
descending score, and within each equal-score class the sorted list
preserves the pre-sort (input) order. -/
theorem semanticSearch_semantic_path (sqrt : K → K) (pipe : Pipe K)
    (cache : Cache K) (query : String) (prompts : List (Prompt K))
    (qv : List K)
    (hq : embedText true pipe sqrt (jsTrim query) = some qv) :
    ∃ res cache',
      semanticSearch sqrt true pipe cache query prompts =
        (SearchResult.scored res, cache') ∧
      (∀ r ∈ res, r.prompt ∈ prompts.take SEMANTIC_PROMPT_CAP) ∧
      (∀ r ∈ res, 1 / 4 < r.score) ∧
      (∀ r ∈ res, ∃ v, r.score = cosineSimilarity sqrt (some qv) (some v)) ∧
      List.Pairwise scoreGE res ∧
      (∀ s : K,
        res.filter (fun a => decide (a.score = s)) =
          (scoreLoop sqrt true pipe qv (prompts.take SEMANTIC_PROMPT_CAP)
            cache).1.filter (fun a => decide (a.score = s))) := by
  have hq' : jsTrim query ≠ "" := by
    intro h
    rw [h] at hq
    simp [embedText, jsTrim] at hq
  refine ⟨sortByScore (scoreLoop sqrt true pipe qv
      (prompts.take SEMANTIC_PROMPT_CAP) cache).1,
    (scoreLoop sqrt true pipe qv (prompts.take SEMANTIC_PROMPT_CAP)
      cache).2, ?_, ?_, ?_, ?_, ?_, ?_⟩
  · unfold semanticSearch
    rw [if_neg hq', if_neg (by simp), hq]
  · intro r hr
    have hr' : r ∈ (scoreLoop sqrt true pipe qv
        (prompts.take SEMANTIC_PROMPT_CAP) cache).1 :=
      (List.mem_insertionSort scoreGE).mp hr
    exact (scoreLoop_mem sqrt true pipe qv _ cache r hr').1
  · intro r hr
    have hr' : r ∈ (scoreLoop sqrt true pipe qv
        (prompts.take SEMANTIC_PROMPT_CAP) cache).1 :=
      (List.mem_insertionSort scoreGE).mp hr
    exact (scoreLoop_mem sqrt true pipe qv _ cache r hr').2.1
  · intro r hr
    have hr' : r ∈ (scoreLoop sqrt true pipe qv
        (prompts.take SEMANTIC_PROMPT_CAP) cache).1 :=
      (List.mem_insertionSort scoreGE).mp hr
    exact (scoreLoop_mem sqrt true pipe qv _ cache r hr').2.2
  · exact List.sorted_insertionSort scoreGE _
  · intro s
    exact filter_sortByScore_score s _

/-- Witness for C2 with a one-prompt corpus over `ℚ` (every embedding is
the unit vector `[1]`, so the prompt scores `1 > 1/4`). -/
theorem semanticSearch_semantic_path_witness :
    ∃ res cache',
      semanticSearch (id : ℚ → ℚ) true
          (some fun _ => Except.ok (ModelOutput.tensor [1] [1])) []
          "q" [⟨"a", "t", "x", [], none⟩] =
        (SearchResult.scored res, cache') ∧
      (∀ r ∈ res, r.prompt ∈
        [(⟨"a", "t", "x", [], none⟩ : Prompt ℚ)].take SEMANTIC_PROMPT_CAP) ∧
      (∀ r ∈ res, (1 : ℚ) / 4 < r.score) ∧
      (∀ r ∈ res, ∃ v, r.score =
        cosineSimilarity id (some [(1 : ℚ)]) (some v)) ∧
      List.Pairwise scoreGE res ∧
      (∀ s : ℚ,
        res.filter (fun a => decide (a.score = s)) =
          (scoreLoop (id : ℚ → ℚ) true
            (some fun _ => Except.ok (ModelOutput.tensor [1] [1])) [1]
            ([⟨"a", "t", "x", [], none⟩].take SEMANTIC_PROMPT_CAP)
            []).1.filter (fun a => decide (a.score = s))) :=
  semanticSearch_semantic_path id
    (some fun _ => Except.ok (ModelOutput.tensor [1] [1])) []
    "q" [⟨"a", "t", "x", [], none⟩] [1]
    (by
      have hx : jsTrim "q" = "q" := by decide
      rw [hx]
      simp only [embedText, hx]
      rw [if_neg (by simp)]
      norm_num [resolveTensor, meanPoolAndNormalize, meanPool, normalizeVec,
        sumSq])

theorem scoreLoop_cache_suffix (sqrt : K → K) (ai : Bool) (pipe : Pipe K)
    (qv : List K) :
    ∀ (ps : List (Prompt K)) (cache : Cache K),
      ∃ added, (scoreLoop sqrt ai pipe qv ps cache).2 = added ++ cache := by
  intro ps
  induction ps with
  | nil =>
    intro cache
    exact ⟨[], rfl⟩
  | cons p rest ih =>
    intro cache
    cases hlk : cache.lookup (cacheKey p) with
    | some w =>
      simp only [scoreLoop, hlk]
      exact ih cache
    | none =>
      cases hemb : embedText ai pipe sqrt (combinedText p) with
      | none =>
        simp only [scoreLoop, hlk, hemb]
        exact ih cache
      | some w =>
        simp only [scoreLoop, hlk, hemb]
        obtain ⟨a', ha'⟩ := ih ((cacheKey p, w) :: cache)
        exact ⟨a' ++ [(cacheKey p, w)], by rw [ha']; simp⟩

theorem scoreLoop_lookup_preserved (sqrt : K → K) (ai : Bool)
    (pipe : Pipe K) (qv : List K) :
    ∀ (ps : List (Prompt K)) (cache : Cache K) (k : String) (v : List K),
      cache.lookup k = some v →
      ((scoreLoop sqrt ai pipe qv ps cache).2).lookup k = some v := by
  intro ps
  induction ps with
  | nil =>
    intro cache k v h
    exact h
  | cons p rest ih =>
    intro cache k v h
    cases hlk : cache.lookup (cacheKey p) with
    | some w =>
      simp only [scoreLoop, hlk]
      exact ih cache k v h
    | none =>
      cases hemb : embedText ai pipe sqrt (combinedText p) with
      | none =>
        simp only [scoreLoop, hlk, hemb]
        exact ih cache k v h
      | some w =>
        simp only [scoreLoop, hlk, hemb]
        apply ih
        have hk : (k == cacheKey p) = false := by
          refine beq_eq_false_iff_ne.mpr ?_
          intro he
          rw [he, hlk] at h
          exact Option.noConfusion h
        simpa [List.lookup, hk] using h

/-- Amended C9: the composite-key embedding cache of `semanticSearch` is
not per-call; it is a module-level map that persists across calls. Every
search call only adds entries on top of the cache it starts from, and
every entry present at the start of a call is still present (and found by
lookup) after the call, so it is visible to subsequent calls. -/
theorem semanticCache_persists (sqrt : K → K) (ai : Bool) (pipe : Pipe K)
    (cache : Cache K) (query : String) (prompts : List (Prompt K)) :
    (∃ added, (semanticSearch sqrt ai pipe cache query prompts).2 =
      added ++ cache) ∧
    (∀ k v, cache.lookup k = some v →
      ((semanticSearch sqrt ai pipe cache query prompts).2).lookup k =
        some v) := by
  by_cases hq0 : jsTrim query = ""
  · constructor
    · exact ⟨[], by simp [semanticSearch, hq0]⟩
    · intro k v h
      simpa [semanticSearch, hq0] using h
  · by_cases hai : ai = false
    · constructor
      · exact ⟨[], by simp [semanticSearch, hq0, hai]⟩
      · intro k v h
        simpa [semanticSearch, hq0, hai] using h
    · have hai' : ai = true := by
        cases ai
        · exact absurd rfl hai
        · rfl
      subst hai'
      cases hemb : embedText true pipe sqrt (jsTrim query) with
      | none =>
        constructor
        · exact ⟨[], by simp [semanticSearch, hq0, hemb]⟩
        · intro k v h
          simpa [semanticSearch, hq0, hemb] using h
      | some qv =>
        have hout : (semanticSearch sqrt true pipe cache query prompts).2 =
            (scoreLoop sqrt true pipe qv (prompts.take SEMANTIC_PROMPT_CAP)
              cache).2 := by
          unfold semanticSearch
          rw [if_neg hq0, if_neg (by simp), hemb]
        constructor
        · rw [hout]
          exact scoreLoop_cache_suffix sqrt true pipe qv _ cache
        · intro k v h
          rw [hout]
          exact scoreLoop_lookup_preserved sqrt true pipe qv _ cache k v h

/-- Witness for the amended C9 at a concrete pre-populated cache. -/
theorem semanticCache_persists_witness :
    (∃ added, (semanticSearch (id : ℚ → ℚ) true
        (some fun _ => Except.ok ModelOutput.invalid) [("k", [1])] "q"
        []).2 = added ++ [("k", [1])]) ∧
    (∀ k v, ([(("k" : String), [(1 : ℚ)])]).lookup k = some v →
      ((semanticSearch (id : ℚ → ℚ) true
        (some fun _ => Except.ok ModelOutput.invalid) [("k", [1])] "q"
        []).2).lookup k = some v) :=
  semanticCache_persists id true (some fun _ => Except.ok ModelOutput.invalid)
    [("k", [1])] "q" []

/-- Counterexample to C9 as stated: the composite-key cache is not
per-call. Running a search over `pC1` (id `"a"`, text `"x1"`) caches the
vector `[1, 0]` under key `"a"`; a second search over `pC2` (same id,
different text `"x2"`) started from the first call's cache resolves the
stale cached vector and returns a scored hit, whereas the same call
started from an empty cache embeds `"t1 x2"`, scores `0`, and returns no
results. The first call also leaves a non-empty cache behind, so the cache
is not empty at the start of a subsequent call. -/
theorem semanticCache_not_per_call :
    (semanticSearch (id : ℚ → ℚ) true pipeC
        (semanticSearch (id : ℚ → ℚ) true pipeC [] "q" [pC1]).2 "q"
        [pC2]).1 ≠
      (semanticSearch (id : ℚ → ℚ) true pipeC [] "q" [pC2]).1 ∧
    (semanticSearch (id : ℚ → ℚ) true pipeC [] "q" [pC1]).2 ≠ [] := by
  have hqtrim : jsTrim "q" = "q" := by decide
  have hkey1 : cacheKey pC1 = "a" := by decide
  have hkey2 : cacheKey pC2 = "a" := by decide
  have hcomb1 : combinedText pC1 = "t1 x1" := by decide
  have hcomb2 : combinedText pC2 = "t1 x2" := by decide
  have eq0 : embedText true pipeC id "q" = some [1, 0] := by
    have ht : jsTrim "q" = "q" := by decide
    simp only [embedText, ht, pipeC]
    rw [if_neg (by decide)]
    norm_num [resolveTensor, meanPoolAndNormalize, meanPool, normalizeVec,
      sumSq]
  have e1 : embedText true pipeC id "t1 x1" = some [1, 0] := by
    have ht : jsTrim "t1 x1" = "t1 x1" := by decide
    simp only [embedText, ht, pipeC]
    rw [if_neg (by decide)]
    norm_num [resolveTensor, meanPoolAndNormalize, meanPool, normalizeVec,
      sumSq]
  have e2 : embedText true pipeC id "t1 x2" = some [0, 1] := by
    have ht : jsTrim "t1 x2" = "t1 x2" := by decide
    simp only [embedText, ht, pipeC]
    rw [if_neg (by decide)]
    rw [if_neg (by decide)]
    norm_num [resolveTensor, meanPoolAndNormalize, meanPool, normalizeVec,
      sumSq]
  have hcos11 : cosineSimilarity (id : ℚ → ℚ) (some [1, 0]) (some [1, 0]) =
      1 := by
    norm_num [cosineSimilarity, dotProd, sumSq]
  have hcos10 : cosineSimilarity (id : ℚ → ℚ) (some [1, 0]) (some [0, 1]) =
      0 := by
    norm_num [cosineSimilarity, dotProd, sumSq]
  have htake1 : ([pC1] : List (Prompt ℚ)).take SEMANTIC_PROMPT_CAP =
      [pC1] := rfl
  have htake2 : ([pC2] : List (Prompt ℚ)).take SEMANTIC_PROMPT_CAP =
      [pC2] := rfl
  have hloop1 : scoreLoop (id : ℚ → ℚ) true pipeC [1, 0] [pC1] [] =
      ([⟨pC1, 1⟩], [("a", [1, 0])]) := by
    simp only [scoreLoop, List.lookup, hcomb1, e1, hkey1, hcos11]
    norm_num
  have hloop2 : scoreLoop (id : ℚ → ℚ) true pipeC [1, 0] [pC2]
      [("a", [1, 0])] = ([⟨pC2, 1⟩], [("a", [1, 0])]) := by
    have hlk : (([("a", [1, 0])] : Cache ℚ)).lookup (cacheKey pC2) =
        some [1, 0] := by
      rw [hkey2]
      rfl
    simp only [scoreLoop, hlk, hcos11]
    norm_num
  have hloopf : scoreLoop (id : ℚ → ℚ) true pipeC [1, 0] [pC2] [] =
      ([], [("a", [0, 1])]) := by
    simp only [scoreLoop, List.lookup, hcomb2, e2, hkey2, hcos10]
    norm_num
  have hrun1 : semanticSearch (id : ℚ → ℚ) true pipeC [] "q" [pC1] =
      (SearchResult.scored [⟨pC1, 1⟩], [("a", [1, 0])]) := by
    simp only [semanticSearch, hqtrim]
    rw [if_neg (by decide), if_neg (by decide)]
    simp only [eq0, htake1, hloop1]
    simp [sortByScore, List.insertionSort, List.orderedInsert]
  have hrun2 : semanticSearch (id : ℚ → ℚ) true pipeC [("a", [1, 0])] "q"
      [pC2] = (SearchResult.scored [⟨pC2, 1⟩], [("a", [1, 0])]) := by
    simp only [semanticSearch, hqtrim]
    rw [if_neg (by decide), if_neg (by decide)]
    simp only [eq0, htake2, hloop2]
    simp [sortByScore, List.insertionSort, List.orderedInsert]
  have hfresh : semanticSearch (id : ℚ → ℚ) true pipeC [] "q" [pC2] =
      (SearchResult.scored [], [("a", [0, 1])]) := by
    simp only [semanticSearch, hqtrim]
    rw [if_neg (by decide), if_neg (by decide)]
    simp only [eq0, htake2, hloopf]
    simp [sortByScore, List.insertionSort]
  constructor
  · rw [hrun1]
    rw [hrun2, hfresh]
    simp
  · rw [hrun1]
    simp

theorem resolveStored_fst_congr (sqrt : K → K) (ai : Bool) (pipe : Pipe K)
    (cache₁ cache₂ : Cache K) (p : Prompt K) :
    (resolveStored sqrt ai pipe cache₁ p).1 =
      (resolveStored sqrt ai pipe cache₂ p).1 := by
  unfold resolveStored
  cases toVector p.embedding with
  | some stored => rfl
  | none =>
    cases embedText ai pipe sqrt (jsTrim p.text) with
    | some computed => rfl
    | none => rfl

theorem getPromptTextEmbedding_fst_congr (sqrt : K → K) (ai : Bool)
    (pipe : Pipe K) (cache₁ cache₂ : Cache K) (p : Prompt K)
    (h : p.id ≠ "" → cache₁.lookup p.id = cache₂.lookup p.id) :
    (getPromptTextEmbedding sqrt ai pipe cache₁ p).1 =
      (getPromptTextEmbedding sqrt ai pipe cache₂ p).1 := by
  unfold getPromptTextEmbedding
  by_cases hid : p.id ≠ ""
  · rw [if_pos hid, if_pos hid, h hid]
    cases cache₂.lookup p.id with
    | some v => rfl
    | none => exact resolveStored_fst_congr sqrt ai pipe cache₁ cache₂ p
  · rw [if_neg hid, if_neg hid]
    exact resolveStored_fst_congr sqrt ai pipe cache₁ cache₂ p

theorem getPromptTextEmbedding_snd_shape (sqrt : K → K) (ai : Bool)
    (pipe : Pipe K) (cache : Cache K) (p : Prompt K) :
    ∃ added, (getPromptTextEmbedding sqrt ai pipe cache p).2 =
      added ++ cache ∧ ∀ e ∈ added, e.1 = p.id ∧ p.id ≠ "" := by
  unfold getPromptTextEmbedding resolveStored
  by_cases hid : p.id ≠ ""
  · rw [if_pos hid]
    cases cache.lookup p.id with
    | some v => exact ⟨[], rfl, by simp⟩
    | none =>
      cases toVector p.embedding with
      | some stored =>
        refine ⟨[(p.id, stored)], ?_, ?_⟩
        · simp [hid]
        · intro e he
          simp only [List.mem_singleton] at he
          subst he
          exact ⟨rfl, hid⟩
      | none =>
        cases embedText ai pipe sqrt (jsTrim p.text) with
        | some computed =>
          refine ⟨[(p.id, computed)], ?_, ?_⟩
          · simp [hid]
          · intro e he
            simp only [List.mem_singleton] at he
            subst he
            exact ⟨rfl, hid⟩
        | none => exact ⟨[], rfl, by simp⟩
  · rw [if_neg hid]
    cases toVector p.embedding with
    | some stored => exact ⟨[], by simp [hid], by simp⟩
    | none =>
      cases embedText ai pipe sqrt (jsTrim p.text) with
      | some computed => exact ⟨[], by simp [hid], by simp⟩
      | none => exact ⟨[], rfl, by simp⟩

theorem lookup_append_of_no_key (k : String) (l₁ l₂ : Cache K)
    (h : ∀ e ∈ l₁, k ≠ e.1) :
    (l₁ ++ l₂).lookup k = l₂.lookup k := by
  induction l₁ with
  | nil => rfl
  | cons e t ih =>
    have hk : (k == e.1) = false :=
      beq_eq_false_iff_ne.mpr (h e (List.mem_cons_self _ _))
    show List.lookup k ((e.1, e.2) :: (t ++ l₂)) = _
    simp only [List.lookup, hk]
    exact ih fun e' he' => h e' (List.mem_cons_of_mem _ he')

theorem dupScan_eq_find (sqrt : K → K) (pipe : Pipe K) (qv : List K) :
    ∀ (ps : List (Prompt K)) (extra cache : Cache K),
      (∀ e ∈ extra, ∀ q ∈ ps, q.id = "" ∨ q.id ≠ e.1) →
      ps.Pairwise (fun p q => p.id = "" ∨ q.id = "" ∨ p.id ≠ q.id) →
      (dupScan sqrt true pipe qv ps (extra ++ cache)).1 =
        ps.find? (dupHit sqrt true pipe cache qv) := by
  intro ps
  induction ps with
  | nil =>
    intro extra cache hex hpw
    rfl
  | cons p rest ih =>
    intro extra cache hex hpw
    have hfst : (getPromptTextEmbedding sqrt true pipe (extra ++ cache) p).1 =
        (getPromptTextEmbedding sqrt true pipe cache p).1 := by
      apply getPromptTextEmbedding_fst_congr
      intro hid
      apply lookup_append_of_no_key
      intro e he
      rcases hex e he p (List.mem_cons_self _ _) with h0 | hne
      · exact absurd h0 hid
      · exact hne
    obtain ⟨added, hsnd, haddkeys⟩ :=
      getPromptTextEmbedding_snd_shape sqrt true pipe (extra ++ cache) p
    have hrest : ∀ e ∈ added ++ extra, ∀ q ∈ rest,
        q.id = "" ∨ q.id ≠ e.1 := by
      intro e he q hq
      rcases List.mem_append.mp he with hea | hee
      · obtain ⟨hek, hpid⟩ := haddkeys e hea
        rcases List.rel_of_pairwise_cons hpw hq with h0 | h0 | h0
        · exact absurd h0 hpid
        · exact Or.inl h0
        · rw [hek]
          exact Or.inr (Ne.symm h0)
      · exact hex e hee q (List.mem_cons_of_mem _ hq)
    have hpwrest := List.Pairwise.of_cons hpw
    cases hr : (getPromptTextEmbedding sqrt true pipe cache p).1 with
    | none =>
      have hhit : dupHit sqrt true pipe cache qv p = false := by
        unfold dupHit
        rw [hr]
      rw [List.find?_cons_of_neg _ (by rw [hhit]; exact Bool.false_ne_true)]
      have hr' := hfst.trans hr
      simp only [dupScan, hr']
      rw [hsnd]
      have hgoal := ih (added ++ extra) cache hrest hpwrest
      rw [List.append_assoc] at hgoal
      exact hgoal
    | some v =>
      have hr' := hfst.trans hr
      by_cases hsim : 92 / 100 < cosineSimilarity sqrt (some qv) (some v)
      · have hhit : dupHit sqrt true pipe cache qv p = true := by
          unfold dupHit
          rw [hr]
          simpa using hsim
        rw [List.find?_cons_of_pos _ hhit]
        simp only [dupScan, hr']
        rw [if_pos hsim]
      · have hhit : dupHit sqrt true pipe cache qv p = false := by
          unfold dupHit
          rw [hr]
          simpa using hsim
        rw [List.find?_cons_of_neg _ (by rw [hhit]; exact Bool.false_ne_true)]
        simp only [dupScan, hr']
        rw [if_neg hsim, hsnd]
        have hgoal := ih (added ++ extra) cache hrest hpwrest
        rw [List.append_assoc] at hgoal
        exact hgoal

/-- C3: with the model available and the candidate embedding successfully,
`isDuplicate` returns the first prompt in list order whose resolved vector
scores strictly above `0.92` against the candidate (`List.find?`: the scan
short-circuits at that prompt), and returns no match after scanning all
prompts when none scores strictly above `0.92` — a similarity of exactly
`0.92` does not qualify, by the strict inequality inside `dupHit`. The
hypothesis `hids` rules out two distinct prompts sharing a non-empty id,
which matches the id-uniqueness of created prompts; without it an earlier
prompt's cache write could shadow a later prompt with the same id. -/
theorem isDuplicate_first_match (sqrt : K → K) (pipe : Pipe K)
    (cache : Cache K) (newText : String) (prompts : List (Prompt K))
    (qv : List K)
    (hqv : embedText true pipe sqrt newText = some qv)
    (hids : prompts.Pairwise fun p q => p.id = "" ∨ q.id = "" ∨
      p.id ≠ q.id) :
    (isDuplicate sqrt true pipe cache newText prompts).1 =
      prompts.find? (dupHit sqrt true pipe cache qv) := by
  unfold isDuplicate
  rw [if_neg (by simp)]
  simp only [hqv]
  have h := dupScan_eq_find sqrt pipe qv prompts [] cache (by simp) hids
  simpa using h

/-- Witness for C3: the candidate embeds to `[1, 0]`; the first prompt's
stored vector is orthogonal and the second matches exactly, so the second
is found. -/
theorem isDuplicate_first_match_witness :
    (isDuplicate (id : ℚ → ℚ) true
        (some fun _ => Except.ok (ModelOutput.tensor [1, 0] [2])) [] "c"
        [⟨"a", "", "ta", [], some [0, 1]⟩,
         ⟨"b", "", "tb", [], some [1, 0]⟩]).1 =
      [(⟨"a", "", "ta", [], some [0, 1]⟩ : Prompt ℚ),
       ⟨"b", "", "tb", [], some [1, 0]⟩].find?
        (dupHit (id : ℚ → ℚ) true
          (some fun _ => Except.ok (ModelOutput.tensor [1, 0] [2])) []
          [1, 0]) :=
  isDuplicate_first_match id
    (some fun _ => Except.ok (ModelOutput.tensor [1, 0] [2])) [] "c"
    [⟨"a", "", "ta", [], some [0, 1]⟩, ⟨"b", "", "tb", [], some [1, 0]⟩]
    [1, 0]
    (by
      have ht : jsTrim "c" = "c" := by decide
      simp only [embedText, ht]
      rw [if_neg (by decide)]
      norm_num [resolveTensor, meanPoolAndNormalize, meanPool, normalizeVec,
        sumSq])
    (by decide)

theorem rehydrateLoop_changed_iff (sqrt : K → K) (ai : Bool)
    (pipe : Pipe K) :
    ∀ (ps : List (Prompt K)) (cache : Cache K),
      (rehydrateLoop sqrt ai pipe ps cache).2.1 = true ↔
        ∃ p ∈ ps, hasNonEmptyEmbedding p = false ∧
          (embedText ai pipe sqrt (jsTrim p.text)).isSome = true := by
  intro ps
  induction ps with
  | nil =>
    intro cache
    simp [rehydrateLoop]
  | cons p rest ih =>
    intro cache
    by_cases hne : hasNonEmptyEmbedding p
    · simp only [rehydrateLoop, if_pos hne]
      rw [ih cache]
      constructor
      · rintro ⟨q, hq, h1, h2⟩
        exact ⟨q, List.mem_cons_of_mem _ hq, h1, h2⟩
      · rintro ⟨q, hq, h1, h2⟩
        rcases List.mem_cons.mp hq with rfl | hq'
        · exact absurd hne (by simp [h1])
        · exact ⟨q, hq', h1, h2⟩
    · have hne' : hasNonEmptyEmbedding p = false := by
        simpa using hne
      cases hemb : embedText ai pipe sqrt (jsTrim p.text) with
      | none =>
        simp only [rehydrateLoop, if_neg hne, hemb]
        rw [ih cache]
        constructor
        · rintro ⟨q, hq, h1, h2⟩
          exact ⟨q, List.mem_cons_of_mem _ hq, h1, h2⟩
        · rintro ⟨q, hq, h1, h2⟩
          rcases List.mem_cons.mp hq with rfl | hq'
          · rw [hemb] at h2
            exact absurd h2 (by simp)
          · exact ⟨q, hq', h1, h2⟩
      | some emb =>
        simp only [rehydrateLoop, if_neg hne, hemb]
        constructor
        · intro _
          exact ⟨p, List.mem_cons_self _ _, hne', by rw [hemb]; rfl⟩
        · intro _
          trivial

theorem rehydrateLoop_post (sqrt : K → K) (ai : Bool) (pipe : Pipe K)
    (hne : ∀ t v, embedText ai pipe sqrt t = some v → v ≠ []) :
    ∀ (ps : List (Prompt K)) (cache : Cache K),
      ∀ p' ∈ (rehydrateLoop sqrt ai pipe ps cache).1,
        hasNonEmptyEmbedding p' = true ∨
          embedText ai pipe sqrt (jsTrim p'.text) = none := by
  intro ps
  induction ps with
  | nil =>
    intro cache p' hp'
    simp [rehydrateLoop] at hp'
  | cons p rest ih =>
    intro cache p' hp'
    by_cases hskip : hasNonEmptyEmbedding p
    · simp only [rehydrateLoop, if_pos hskip] at hp'
      rcases List.mem_cons.mp hp' with rfl | hp''
      · exact Or.inl hskip
      · exact ih cache p' hp''
    · cases hemb : embedText ai pipe sqrt (jsTrim p.text) with
      | none =>
        simp only [rehydrateLoop, if_neg hskip, hemb] at hp'
        rcases List.mem_cons.mp hp' with rfl | hp''
        · exact Or.inr hemb
        · exact ih cache p' hp''
      | some emb =>
        simp only [rehydrateLoop, if_neg hskip, hemb] at hp'
        rcases List.mem_cons.mp hp' with rfl | hp''
        · left
          have hv : emb ≠ [] := hne _ _ hemb
          unfold hasNonEmptyEmbedding
          simp [List.length_pos.mpr hv]
        · exact ih _ p' hp''

/-- Amended C4: `rehydratePromptEmbeddings` (flag clear, sequential use)
returns `true` iff some prompt lacking a non-empty embedding embeds
successfully; it performs exactly one whole-collection storage write when
it returns `true` and none when it returns `false`; and — provided every
successful embedding is a non-empty vector, as with any real model of
positive hidden dimension — an immediately repeated call on the written
collection reports `false` and performs no write. (The proviso is needed:
the code treats an empty embedded vector as still missing and would
re-embed and re-write it; see the counterexample.) -/
theorem rehydrate_write_once_and_idem (sqrt : K → K) (pipe : Pipe K)
    (prompts : List (Prompt K)) (cache : Cache K)
    (hne : ∀ t v, embedText true pipe sqrt t = some v → v ≠ []) :
    ((rehydratePromptEmbeddings sqrt true pipe false prompts cache).changed =
        true ↔
      ∃ p ∈ prompts, hasNonEmptyEmbedding p = false ∧
        (embedText true pipe sqrt (jsTrim p.text)).isSome = true) ∧
    ((rehydratePromptEmbeddings sqrt true pipe false prompts cache).writes =
      if (rehydratePromptEmbeddings sqrt true pipe false prompts
          cache).changed then
        [(rehydratePromptEmbeddings sqrt true pipe false prompts
          cache).prompts]
      else []) ∧
    (rehydratePromptEmbeddings sqrt true pipe false
        (rehydratePromptEmbeddings sqrt true pipe false prompts
          cache).prompts
        (rehydratePromptEmbeddings sqrt true pipe false prompts
          cache).cache).changed = false ∧
    (rehydratePromptEmbeddings sqrt true pipe false
        (rehydratePromptEmbeddings sqrt true pipe false prompts
          cache).prompts
        (rehydratePromptEmbeddings sqrt true pipe false prompts
          cache).cache).writes = [] := by
  by_cases hnil : prompts = []
  · subst hnil
    refine ⟨?_, ?_, ?_, ?_⟩ <;> simp [rehydratePromptEmbeddings]
  · have hguard : ¬((true : Bool) = false ∨ (false : Bool) = true ∨
        prompts.length = 0) := by
      simp [List.length_eq_zero, hnil]
    have hmain : rehydratePromptEmbeddings sqrt true pipe false prompts
        cache =
        ⟨(rehydrateLoop sqrt true pipe prompts cache).2.1,
         if (rehydrateLoop sqrt true pipe prompts cache).2.1 then
           [(rehydrateLoop sqrt true pipe prompts cache).1]
         else [],
         (rehydrateLoop sqrt true pipe prompts cache).1,
         (rehydrateLoop sqrt true pipe prompts cache).2.2⟩ := by
      unfold rehydratePromptEmbeddings
      rw [if_neg hguard]
    have hsecond : ∀ cache₂ : Cache K,
        (rehydratePromptEmbeddings sqrt true pipe false
          (rehydrateLoop sqrt true pipe prompts cache).1 cache₂).changed =
          false ∧
        (rehydratePromptEmbeddings sqrt true pipe false
          (rehydrateLoop sqrt true pipe prompts cache).1 cache₂).writes =
          [] := by
      intro cache₂
      by_cases hnil2 : (rehydrateLoop sqrt true pipe prompts cache).1 = []
      · rw [hnil2]
        constructor <;> simp [rehydratePromptEmbeddings]
      · have hguard2 : ¬((true : Bool) = false ∨ (false : Bool) = true ∨
            ((rehydrateLoop sqrt true pipe prompts cache).1).length = 0) := by
          simp [List.length_eq_zero, hnil2]
        have hch2 : (rehydrateLoop sqrt true pipe
            (rehydrateLoop sqrt true pipe prompts cache).1 cache₂).2.1 =
            false := by
          by_contra hcontra
          have htrue : (rehydrateLoop sqrt true pipe
              (rehydrateLoop sqrt true pipe prompts cache).1 cache₂).2.1 =
              true := by
            cases h : (rehydrateLoop sqrt true pipe
                (rehydrateLoop sqrt true pipe prompts cache).1 cache₂).2.1
            · exact absurd h hcontra
            · rfl
          obtain ⟨p', hp', hfalse, hsome⟩ :=
            (rehydrateLoop_changed_iff sqrt true pipe _ cache₂).mp htrue
          rcases rehydrateLoop_post sqrt true pipe hne prompts cache p' hp'
            with h1 | h1
          · rw [h1] at hfalse
            exact Bool.noConfusion hfalse
          · rw [h1] at hsome
            exact Bool.noConfusion hsome
        unfold rehydratePromptEmbeddings
        rw [if_neg hguard2]
        constructor
        · exact hch2
        · simp [hch2]
    refine ⟨?_, ?_, ?_, ?_⟩
    · rw [hmain]
      exact rehydrateLoop_changed_iff sqrt true pipe prompts cache
    · rw [hmain]
    · rw [hmain]
      exact (hsecond _).1
    · rw [hmain]
      exact (hsecond _).2

/-- Witness for the amended C4: a prompt with no embedding gets embedded
(to the non-empty unit vector `[1]`), producing one write; the repeated
call changes nothing and writes nothing. -/
theorem rehydrate_write_once_and_idem_witness :
    ((rehydratePromptEmbeddings (id : ℚ → ℚ) true pipeW false
        [⟨"w", "", "tw", [], none⟩] []).changed = true ↔
      ∃ p ∈ [(⟨"w", "", "tw", [], none⟩ : Prompt ℚ)],
        hasNonEmptyEmbedding p = false ∧
        (embedText true pipeW id (jsTrim p.text)).isSome = true) ∧
    ((rehydratePromptEmbeddings (id : ℚ → ℚ) true pipeW false
        [⟨"w", "", "tw", [], none⟩] []).writes =
      if (rehydratePromptEmbeddings (id : ℚ → ℚ) true pipeW false
          [⟨"w", "", "tw", [], none⟩] []).changed then
        [(rehydratePromptEmbeddings (id : ℚ → ℚ) true pipeW false
          [⟨"w", "", "tw", [], none⟩] []).prompts]
      else []) ∧
    (rehydratePromptEmbeddings (id : ℚ → ℚ) true pipeW false
        (rehydratePromptEmbeddings (id : ℚ → ℚ) true pipeW false
          [⟨"w", "", "tw", [], none⟩] []).prompts
        (rehydratePromptEmbeddings (id : ℚ → ℚ) true pipeW false
          [⟨"w", "", "tw", [], none⟩] []).cache).changed = false ∧
    (rehydratePromptEmbeddings (id : ℚ → ℚ) true pipeW false
        (rehydratePromptEmbeddings (id : ℚ → ℚ) true pipeW false
          [⟨"w", "", "tw", [], none⟩] []).prompts
        (rehydratePromptEmbeddings (id : ℚ → ℚ) true pipeW false
          [⟨"w", "", "tw", [], none⟩] []).cache).writes = [] :=
  rehydrate_write_once_and_idem id pipeW [⟨"w", "", "tw", [], none⟩] []
    (by
      intro t v h
      simp only [embedText, pipeW] at h
      split at h
      · exact absurd h (by simp)
      · norm_num [resolveTensor, meanPoolAndNormalize, meanPool,
          normalizeVec, sumSq] at h
        rw [← h]
        norm_num)

/-- Counterexample to C4 as stated: with a degenerate pipeline whose
output resolves to an empty pooled vector, `embedText` succeeds with the
empty vector `[]`; the first rehydration call stores `embedding: []` and
writes, but `[]` does not count as a non-empty embedding, so the second
call re-embeds, reports `true` again, and performs another write —
violating the claimed second-call `false`/no-write behaviour. -/
theorem rehydrate_idem_fails_on_empty_embedding :
    (rehydratePromptEmbeddings (id : ℚ → ℚ) true
        (some fun _ => Except.ok (ModelOutput.arr [])) false
        (rehydratePromptEmbeddings (id : ℚ → ℚ) true
          (some fun _ => Except.ok (ModelOutput.arr [])) false
          [⟨"p1", "t", "x", [], none⟩] []).prompts
        (rehydratePromptEmbeddings (id : ℚ → ℚ) true
          (some fun _ => Except.ok (ModelOutput.arr [])) false
          [⟨"p1", "t", "x", [], none⟩] []).cache).changed = true ∧
    (rehydratePromptEmbeddings (id : ℚ → ℚ) true
        (some fun _ => Except.ok (ModelOutput.arr [])) false
        (rehydratePromptEmbeddings (id : ℚ → ℚ) true
          (some fun _ => Except.ok (ModelOutput.arr [])) false
          [⟨"p1", "t", "x", [], none⟩] []).prompts
        (rehydratePromptEmbeddings (id : ℚ → ℚ) true
          (some fun _ => Except.ok (ModelOutput.arr [])) false
          [⟨"p1", "t", "x", [], none⟩] []).cache).writes ≠ [] := by
  decide

/-- C1 (code evaluation): deleting the only prompt `"p1"` through the
popup delete flow leaves the prompt store empty but leaves the
`textEmbeddingCache` entry keyed `"p1"` in place — no code path evicts it,
contradicting the claim that deletion drops the per-id cache entry (and
the derived keys-subset-of-ids invariant). -/
theorem deletePrompt_leaves_cache_entry :
    (onDeletePrompt
        (⟨[⟨"p1", "t", "x", [], none⟩], [("p1", [1])]⟩ : AppState ℚ)
        "p1").prompts = [] ∧
    ((onDeletePrompt
        (⟨[⟨"p1", "t", "x", [], none⟩], [("p1", [1])]⟩ : AppState ℚ)
        "p1").textEmbeddingCache).lookup "p1" = some [1] := by
  decide

end PromptNest
